import Mathlib

/-!
Verification of the honeypot conversation pipeline: scam detection
(app/core/detector.py), intelligence extraction (app/core/extractor.py),
session storage (app/core/memory.py) and the orchestrator state machine
(app/core/orchestrator.py).  Python regular expressions are embedded as
executable matchers over lists of characters; Python floats are embedded
as exact rationals; the per-session mutable dict is embedded as an
explicit state record threaded through the per-message step function.
-/

namespace HoneyPot

/-- ASCII lower-casing, mirroring Python str.lower and the effect of
re.IGNORECASE on the ASCII patterns of this codebase. -/
def lowerChar (c : Char) : Char :=
  if 'A' ≤ c ∧ c ≤ 'Z' then Char.ofNat (c.toNat + 32) else c

def isDigitCh (c : Char) : Bool := '0' ≤ c && c ≤ '9'

def isAlphaCh (c : Char) : Bool := ('a' ≤ c && c ≤ 'z') || ('A' ≤ c && c ≤ 'Z')

def isAlnumCh (c : Char) : Bool := isAlphaCh c || isDigitCh c

/-- Python regex class backslash-s over the ASCII inputs of this repository:
space, tab, newline, carriage return, vertical tab, form feed. -/
def isSpaceCh (c : Char) : Bool :=
  c = ' ' || c = '\t' || c = '\n' || c = '\r' || c = '\x0b' || c = '\x0c'

/-- Python regex word character (ASCII): letters, digits, underscore. -/
def isWordCh (c : Char) : Bool := isAlnumCh c || c = '_'

/-- Number of leading characters of the list satisfying the class. -/
def countWhile (f : Char → Bool) : List Char → Nat
  | [] => 0
  | c :: cs => if f c then countWhile f cs + 1 else 0

/-- Exact (case-sensitive) prefix test. -/
def hasPrefixCh : List Char → List Char → Bool
  | [], _ => true
  | _ :: _, [] => false
  | a :: l, c :: cs => a = c && hasPrefixCh l cs

/-- Case-insensitive prefix test (re.IGNORECASE literal matching). -/
def hasPrefixCI : List Char → List Char → Bool
  | [], _ => true
  | _ :: _, [] => false
  | a :: l, c :: cs => lowerChar a = lowerChar c && hasPrefixCI l cs

/-- Descending list of naturals from r down to lo (empty when lo > r);
the backtracking preference order of a greedy bounded repetition. -/
def descRange (r lo : Nat) : List Nat :=
  (List.range (r + 1 - lo)).map (fun i => r - i)

/-- Substring containment test on character lists (the Python operator
in-applied-to-str used for all keyword checks). -/
def containsSub (needle hay : List Char) : Bool :=
  (List.range (hay.length + 1)).any (fun i => hasPrefixCh needle (hay.drop i))

/-- Message lowered to a character list (message.lower() in the source). -/
def lowerStr (s : String) : List Char := s.toList.map lowerChar

/-- Abstract syntax of the regex fragment used by the detector patterns
in app/core/detector.py: case-insensitive literals, single-character
classes, greedy star and plus of a class, greedy option, ordered
alternation and sequencing.  No anchors or boundaries occur there. -/
inductive Pat where
  | lit : List Char → Pat
  | cls : (Char → Bool) → Pat
  | starCls : (Char → Bool) → Pat
  | plusCls : (Char → Bool) → Pat
  | opt : Pat → Pat
  | alt : Pat → Pat → Pat
  | seq : Pat → Pat → Pat

/-- All the ways a pattern can match a prefix of the input, as numbers of
consumed characters, listed in the backtracking preference order of the
Python engine (greedy repetitions longest first, alternatives letf to
right, optional part present first). -/
def pmatch : Pat → List Char → List Nat
  | .lit l, cs => if hasPrefixCI l cs then [l.length] else []
  | .cls f, cs =>
    match cs with
    | c :: _ => if f c then [1] else []
    | [] => []
  | .starCls f, cs => descRange (countWhile f cs) 0
  | .plusCls f, cs => descRange (countWhile f cs) 1
  | .opt p, cs => pmatch p cs ++ [0]
  | .alt p q, cs => pmatch p cs ++ pmatch q cs
  | .seq p q, cs =>
    (pmatch p cs).flatMap (fun n => (pmatch q (cs.drop n)).map (fun m => n + m))

/-- Python re.search: the pattern matches starting at some position. -/
def psearch (p : Pat) (cs : List Char) : Bool :=
  (List.range (cs.length + 1)).any (fun i => !(pmatch p (cs.drop i)).isEmpty)

/-- Helper to transcribe a regex sequence. -/
def pseqList : List Pat → Pat
  | [] => .lit []
  | [p] => p
  | p :: ps => .seq p (pseqList ps)

/-- Helper to transcribe an ordered regex alternation. -/
def paltList : List Pat → Pat
  | [] => .lit []
  | [p] => p
  | p :: ps => .alt p (paltList ps)

/-- Case-insensitive literal pattern from a string. -/
def pl (s : String) : Pat := .lit s.toList

/-- Transcription of backslash-s-star. -/
def psp : Pat := .starCls isSpaceCh

/-! ScamDetector (app/core/detector.py).  All SCAM_PATTERNS entries are
compiled with re.IGNORECASE, which the case-insensitive literal matching
of Pat.lit reproduces. -/

def upiFraudPats : List Pat :=
  [ pseqList [pl "upi", psp, pl "id"],
    pseqList [pl "upi", psp, pl "payment"],
    pseqList [pl "@", paltList [pl "paytm", pl "ybl", pl "oksbi", pl "okhdfcbank", pl "okicici"]],
    pseqList [pl "send", psp, pl "money"],
    pseqList [pl "transfer", psp, pl "to"],
    pseqList [pl "verification", psp, pl "fee"],
    pseqList [pl "activate", psp, pl "upi"] ]

def kycFraudPats : List Pat :=
  [ pseqList [pl "kyc", psp, paltList [pl "expired", pl "update", pl "verify", pl "pending", pl "blocked"]],
    pseqList [paltList [pl "update", pl "verify"], psp, pl "your", psp, paltList [pl "kyc", pl "account", pl "details"]],
    pseqList [pl "account", psp, pl "will", psp, pl "be", psp, paltList [pl "blocked", pl "suspended", pl "closed"]],
    pseqList [pl "account", psp, paltList [pl "blocked", pl "suspended", pl "closed", pl "expiry"]],
    pseqList [pl "rbi", psp, pl "mandate"],
    pseqList [pl "regulatory", psp, pl "compliance"] ]

def electricityScamPats : List Pat :=
  [ pseqList [pl "electricity", psp, pl "bill"],
    pseqList [pl "power", psp, pl "supply", psp, paltList [pl "cut", pl "disconnect"]],
    pseqList [pl "pay", psp, pl "your", psp, pl "bill"],
    pseqList [pl "overdue", psp, paltList [pl "bill", pl "payment"]],
    pseqList [pl "connection", psp, pl "will", psp, pl "be", psp, paltList [pl "cut", pl "terminated"]] ]

def courierScamPats : List Pat :=
  [ pseqList [paltList [pl "fedex", pl "dhl", pl "aramex", pl "bluedart"], psp, pl "parcel"],
    pseqList [pl "custom", .opt (pl "s"), psp, paltList [pl "duty", pl "clearance", pl "fee"]],
    pseqList [pl "package", psp, pl "held"],
    pseqList [pl "delivery", psp, paltList [pl "pending", pl "failed"]],
    pseqList [pl "custom", .opt (pl "s"), psp, pl "office"] ]

def jobScamPats : List Pat :=
  [ pseqList [paltList [pl "job", pl "work"], psp, paltList [pl "offer", pl "opportunity", pl "opening"]],
    pseqList [pl "amazon", psp, paltList [pl "hiring", pl "recruitment"]],
    pseqList [pl "part", .opt (.cls (fun c => isSpaceCh c || c = '-')), pl "time", psp, paltList [pl "job", pl "work"]],
    pseqList [pl "earn", psp, paltList [pl "₹", .plusCls isDigitCh]],
    pseqList [pl "registration", psp, pl "fee"] ]

def lotteryPrizePats : List Pat :=
  [ paltList [pl "won", pl "winner", pl "congratulations"],
    pseqList [pl "lottery", psp, pl "prize"],
    pseqList [pl "claim", psp, pl "your", psp, paltList [pl "prize", pl "reward"]],
    pseqList [pl "lucky", psp, pl "draw"],
    pseqList [pl "₹", psp, .plusCls isDigitCh, psp, paltList [pl "lakh", pl "crore"]] ]

/-- SCAM_PATTERNS in source(dict insertion) order. -/
def scamPatterns : List (String × List Pat) :=
  [ ("UPI_FRAUD", upiFraudPats),
    ("KYC_FRAUD", kycFraudPats),
    ("ELECTRICITY_SCAM", electricityScamPats),
    ("COURIER_SCAM", courierScamPats),
    ("JOB_SCAM", jobScamPats),
    ("LOTTERY_PRIZE", lotteryPrizePats) ]

def urgencyKeywords : List String :=
  ["urgent", "immediate", "today", "now", "quickly", "hurry",
   "expire", "last chance", "limited time", "within 24 hours",
   "blocked", "suspended", "terminated", "disconnected"]

def authorityKeywords : List String :=
  ["bank", "rbi", "government", "police", "cyber cell", "income tax",
   "customs", "courier company", "official", "authorized"]

def suspiciousActions : List String :=
  ["click", "link", "verify", "update", "confirm", "share",
   "send", "pay", "transfer", "deposit", "fee", "charge"]

def highRiskKeywords : List String :=
  ["kyc", "upi", "blocked", "suspended", "verify", "urgent"]

/-- How many of the category's patterns match the message (the sum of
pattern.search results for one category). -/
def matchCount (pats : List Pat) (msg : List Char) : Nat :=
  pats.countP (fun p => psearch p msg)

/-- Fraction of a keyword list present in the lowered message. -/
def keywordScore (kws : List String) (ml : List Char) : ℚ :=
  (kws.countP (fun k => containsSub k.toList ml) : ℚ) / (kws.length : ℚ)

/-- The scores dict: one entry per category with at least one match,
score = matches divided by the number of patterns in the category. -/
def categoryScores (msg : List Char) : List (String × ℚ) :=
  scamPatterns.filterMap (fun cp =>
    let m := matchCount cp.2 msg
    if m > 0 then some (cp.1, (m : ℚ) / (cp.2.length : ℚ)) else none)

/-- Python max(scores, key=scores.get): the first entry reaching the
maximum in insertion order (only a strictly greater score replaces). -/
def argmaxFirst : List (String × ℚ) → Option (String × ℚ)
  | [] => none
  | x :: xs => some (xs.foldl (fun best y => if y.2 > best.2 then y else best) x)

/-- Result of ScamDetector._rule_based_detection (the signals dict of the
source is returned but never consumed, so only confidence and scam type
are kept). -/
structure RuleResult where
  confidence : ℚ
  scamType : String
deriving DecidableEq

/-- Transcription of ScamDetector._rule_based_detection. -/
def ruleBasedDetection (msg : String) : RuleResult :=
  let ml := lowerStr msg
  let cs := msg.toList
  let scores := categoryScores cs
  let urgencyScore := keywordScore urgencyKeywords ml
  let authorityScore := keywordScore authorityKeywords ml
  let actionScore := keywordScore suspiciousActions ml
  let tac : String × ℚ :=
    match argmaxFirst scores with
    | some sc => (sc.1, if sc.2 > 0 then max (6/10 : ℚ) (sc.2 * 3) else sc.2)
    | none => ("GENERIC_FRAUD", 0)
  let signalScore := (urgencyScore + authorityScore + actionScore) / 3
  let f1 := tac.2 * (7/10) + signalScore * (3/10)
  let f2 := if urgencyScore > 1/10 ∧ authorityScore > 1/20 then min 1 (f1 + 15/100) else f1
  let highRiskCount := highRiskKeywords.countP (fun k => containsSub k.toList ml)
  let f3 := if highRiskCount ≥ 2 then min 1 (f2 + 1/10) else f2
  ⟨f3, tac.1⟩

/-- Transcription of ScamDetector.detect; the conversation history enters
only through its nonemptiness. -/
def detect (msg : String) (historyNonEmpty : Bool) : Bool × ℚ × String :=
  let r := ruleBasedDetection msg
  if r.confidence > 1/5 then (true, r.confidence, r.scamType)
  else if historyNonEmpty = true ∧ r.confidence > 1/10 then (true, r.confidence, r.scamType)
  else (false, r.confidence, "NONE")

/-! IntelligenceExtractor (app/core/extractor.py).  Each PATTERNS entry is
transcribed as a dedicated matcher.  re.findall scans left to right for
non-overlapping matches and, because the upiIds, bankAccounts and
shortenedLinks patterns contain exactly one capturing group, returns the
text of that group rather than the whole match; the phoneNumbers and
phishingLinks patterns have no capturing group, so the whole match is
returned. -/

/-- Truth of the word-character test on an optional character (characters
off either end of the text count as non-word). -/
def optWord (o : Option Char) : Bool :=
  match o with
  | some c => isWordCh c
  | none => false

/-- Python regex backslash-b: a position is a word boundary when exactly
one of the two adjacent characters is a word character. -/
def isBoundary (prev next : Option Char) : Bool := optWord prev != optWord next

/-- Generic left-to-right scan of re.findall: at each position attempt a
match; on success emit its group and resume after the consumed text,
otherwise advance one character.  The fuel argument is the remaining
input length plus one. -/
def scanAux (tryAt : Option Char → List Char → Option (List Char × Nat)) :
    Nat → Option Char → List Char → List (List Char)
  | 0, _, _ => []
  | _ + 1, _, [] => []
  | fuel + 1, prev, c :: rest =>
    match tryAt prev (c :: rest) with
    | some gk =>
      gk.1 :: scanAux tryAt fuel (((c :: rest).take gk.2).getLast?) ((c :: rest).drop gk.2)
    | none => scanAux tryAt fuel (some c) rest

def scanAll (tryAt : Option Char → List Char → Option (List Char × Nat)) (s : String) :
    List String :=
  (scanAux tryAt (s.toList.length + 1) none s.toList).map (fun g => String.mk g)

/-- Provider allow-list of the upiIds pattern, in alternation order. -/
def upiProviders : List String :=
  ["upi", "paytm", "ybl", "oksbi", "okhdfcbank", "okicici", "okaxis",
   "okbizaxis", "ibl", "axl", "payzapp", "ikwik", "fam", "apl", "abf",
   "pingpay", "olamoney", "phonepe", "googlepay", "gpay", "amazonpay"]

/-- Character class of the upiIds local part: alphanumerics, dot, dash,
underscore. -/
def upiClassCh (c : Char) : Bool := isAlnumCh c || c = '.' || c = '-' || c = '_'

/-- Attempt of the upiIds pattern at one position: word boundary, a
greedy run of 2 to 256 local-part characters, an at sign, then the first
provider alternative that fits and ends at a word boundary.  The emitted
group is the provider as written in the text. -/
def tryUpiAt (prev : Option Char) (cs : List Char) : Option (List Char × Nat) :=
  if isBoundary prev cs.head? then
    let run := countWhile upiClassCh cs
    (descRange (min run 256) 2).findSome? (fun len =>
      match cs.drop len with
      | '@' :: rest2 =>
        upiProviders.findSome? (fun prov =>
          let pv := prov.toList
          if hasPrefixCI pv rest2 &&
              isBoundary ((rest2.take pv.length).getLast?) ((rest2.drop pv.length).head?) then
            some (rest2.take pv.length, len + 1 + pv.length)
          else none)
      | _ => none)
  else none

/-- Label alternatives of the bankAccounts pattern, in alternation order. -/
def accountLabels : List String := ["account", "a/c", "acc", "account number"]

/-- Attempt of the bankAccounts pattern at one position: a label
alternative, a greedy run of colons and whitespace, then 9 to 18 digits
(greedy) ending at a word boundary.  The emitted group is the digits. -/
def tryBankAt (_prev : Option Char) (cs : List Char) : Option (List Char × Nat) :=
  accountLabels.findSome? (fun lab =>
    let lv := lab.toList
    if hasPrefixCI lv cs then
      let rest1 := cs.drop lv.length
      let wsRun := countWhile (fun c => c = ':' || isSpaceCh c) rest1
      (descRange wsRun 0).findSome? (fun w =>
        let rest2 := rest1.drop w
        let drun := countWhile isDigitCh rest2
        (descRange (min drun 18) 9).findSome? (fun dn =>
          if isBoundary ((rest2.take dn).getLast?) ((rest2.drop dn).head?) then
            some (rest2.take dn, lv.length + w + dn)
          else none))
    else none)

/-- Attempt of the phoneNumbers pattern at one position: an optional
plus-91 with an optional dash or space, an optional zero, an optional 91,
then one of 7, 8 or 9 followed by nine digits ending at a word boundary.
Each optional part is greedy, so its present alternative is tried first;
the emitted value is the whole match. -/
def tryPhoneAt (_prev : Option Char) (cs : List Char) : Option (List Char × Nat) :=
  let part1 : List Nat :=
    if hasPrefixCh ['+', '9', '1'] cs then
      match (cs.drop 3).head? with
      | some c => if c = '-' || isSpaceCh c then [4, 3, 0] else [3, 0]
      | none => [3, 0]
    else [0]
  part1.findSome? (fun n1 =>
    let cs1 := cs.drop n1
    let part2 : List Nat := if cs1.head? = some '0' then [1, 0] else [0]
    part2.findSome? (fun n2 =>
      let cs2 := cs1.drop n2
      let part3 : List Nat := if hasPrefixCh ['9', '1'] cs2 then [2, 0] else [0]
      part3.findSome? (fun n3 =>
        let cs3 := cs2.drop n3
        match cs3.head? with
        | some c =>
          if (c = '7' || c = '8' || c = '9') &&
              countWhile isDigitCh (cs3.drop 1) ≥ 9 &&
              isBoundary (((cs3.drop 1).take 9).getLast?) ((cs3.drop 10).head?) then
            some (cs.take (n1 + n2 + n3 + 10), n1 + n2 + n3 + 10)
          else none
        | none => none)))

/-- Shortener domains of the shortenedLinks pattern, alternation order. -/
def shortenerDomains : List String :=
  ["bit.ly", "tinyurl.com", "goo.gl", "t.co", "ow.ly", "is.gd", "buff.ly"]

/-- Attempt of the shortenedLinks pattern at one position: word boundary,
a domain alternative, a slash, then a greedy nonempty run of
alphanumerics ending at a word boundary.  The emitted group is the domain
as written in the text. -/
def tryShortAt (prev : Option Char) (cs : List Char) : Option (List Char × Nat) :=
  if isBoundary prev cs.head? then
    shortenerDomains.findSome? (fun d =>
      let dv := d.toList
      if hasPrefixCI dv cs then
        match cs.drop dv.length with
        | '/' :: rest2 =>
          let run := countWhile isAlnumCh rest2
          (descRange run 1).findSome? (fun len =>
            if isBoundary ((rest2.take len).getLast?) ((rest2.drop len).head?) then
              some (cs.take dv.length, dv.length + 1 + len)
            else none)
        | _ => none
      else none)
  else none

/-- Character class of the phishingLinks pattern body. -/
def urlClassCh (c : Char) : Bool :=
  isAlphaCh c || isDigitCh c || c = '$' || c = '-' || c = '_' || c = '@' ||
  c = '.' || c = '&' || c = '+' || c = '!' || c = '*' || c = '\\' ||
  c = '(' || c = ')' || c = ','

def isHexCh (c : Char) : Bool :=
  isDigitCh c || ('a' ≤ c && c ≤ 'f') || ('A' ≤ c && c ≤ 'F')

/-- Greedy maximal consumption by the repeated group of the
phishingLinks pattern: a class character, or a percent sign followed by
two hexadecimal digits.  The two alternatives never overlap, so greedy
matching is deterministic. -/
def consumeUrl : Nat → List Char → Nat
  | 0, _ => 0
  | fuel + 1, cs =>
    match cs with
    | [] => 0
    | c :: rest =>
      if urlClassCh c then 1 + consumeUrl fuel rest
      else if c = '%' then
        match rest with
        | h1 :: h2 :: rest2 =>
          if isHexCh h1 && isHexCh h2 then 3 + consumeUrl fuel rest2 else 0
        | _ => 0
      else 0

/-- Attempt of the phishingLinks pattern at one position: the literal
http (this pattern is compiled without re.IGNORECASE), an optional s,
the literal colon-slash-slash, then at least one repetition of the URL
body group.  The emitted value is the whole match. -/
def tryUrlAt (_prev : Option Char) (cs : List Char) : Option (List Char × Nat) :=
  if hasPrefixCh ['h', 't', 't', 'p'] cs then
    let afterHttp := cs.drop 4
    let sOpts : List Nat := if afterHttp.head? = some 's' then [1, 0] else [0]
    sOpts.findSome? (fun so =>
      let rest1 := afterHttp.drop so
      if hasPrefixCh [':', '/', '/'] rest1 then
        let n := consumeUrl (rest1.length + 1) (rest1.drop 3)
        if n ≥ 1 then some (cs.take (4 + so + 3 + n), 4 + so + 3 + n) else none
      else none)
  else none

/-- KEYWORD_CATEGORIES of the extractor, in source (dict insertion)
order. -/
def keywordCategories : List (String × List String) :=
  [ ("urgency", ["urgent", "immediately", "now", "today", "expire", "last chance"]),
    ("authority", ["bank", "rbi", "government", "police", "official", "authorized"]),
    ("action", ["click", "verify", "update", "confirm", "share", "pay", "send"]),
    ("threat", ["blocked", "suspended", "terminated", "disconnected", "penalty", "legal action"]),
    ("financial", ["upi", "account", "payment", "transfer", "fee", "charge", "refund"]) ]

/-- Transcription of IntelligenceExtractor._extract_keywords. -/
def extractKeywords (text : String) : List String :=
  let ml := lowerStr text
  keywordCategories.foldl (fun acc ckws =>
    ckws.2.foldl (fun acc2 k =>
      if containsSub k.toList ml && !(acc2.contains k) then acc2 ++ [k] else acc2) acc) []

/-- Transcription of IntelligenceExtractor._deduplicate: drop items whose
lowered form was already seen, keep first occurrences in order. -/
def deduplicate (items : List String) : List String :=
  (items.foldl (fun st item =>
      let low := String.mk (item.toList.map lowerChar)
      if st.1.contains low then st else (st.1 ++ [low], st.2 ++ [item]))
    (([], []) : List String × List String)).2

/-- Transcription of IntelligenceExtractor._normalize_phones. -/
def normalizePhones (phones : List String) : List String :=
  phones.filterMap (fun phone =>
    let digits := phone.toList.filter isDigitCh
    let d1 := if digits.head? = some '0' then digits.tail else digits
    let d2 := if hasPrefixCh ['9', '1'] d1 && d1.length > 10 then d1.drop 2 else d1
    if d2.length = 10 && (d2.head? = some '7' || d2.head? = some '8' || d2.head? = some '9') then
      some ("+91" ++ String.mk d2)
    else none)

/-- The five entity collections of Extracted Intelligence. -/
structure Intel where
  upiIds : List String
  bankAccounts : List String
  phoneNumbers : List String
  phishingLinks : List String
  suspiciousKeywords : List String
deriving DecidableEq

def emptyIntel : Intel := ⟨[], [], [], [], []⟩

/-- Transcription of IntelligenceExtractor.extract: regular and shortened
links are pooled (shorteners prefixed with http-colon-slash-slash) and
deduplicated together. -/
def extract (text : String) : Intel :=
  { upiIds := deduplicate (scanAll tryUpiAt text),
    bankAccounts := deduplicate (scanAll tryBankAt text),
    phoneNumbers := deduplicate (normalizePhones (scanAll tryPhoneAt text)),
    phishingLinks :=
      deduplicate (scanAll tryUrlAt text ++ (scanAll tryShortAt text).map (fun m => "http://" ++ m)),
    suspiciousKeywords := extractKeywords text }

/-! ConversationOrchestrator (app/core/orchestrator.py) and SessionMemory
(app/core/memory.py).  The per-session dict is embedded as a Session
record; the persona reply (random utterance or generative override,
outside the core) is abstracted to the Boolean distinction the
orchestrator itself makes: the neutral closing reply of the early-return
path versus a persona reply. -/

/-- Python list(set(a) | set(b)): the case-sensitive set union of the two
lists.  CPython leaves the order of the resulting list unspecified; the
embedding fixes first-appearance order, and every theorem about merged
collections is stated at the level of membership. -/
def setUnionList (a b : List String) : List String :=
  (a ++ b).foldl (fun acc x => if acc.contains x then acc else acc ++ [x]) []

/-- Transcription of ConversationOrchestrator._merge_intelligence: per
field, existing union new. -/
def mergeIntelligence (existing new : Intel) : Intel :=
  { bankAccounts := setUnionList existing.bankAccounts new.bankAccounts,
    upiIds := setUnionList existing.upiIds new.upiIds,
    phishingLinks := setUnionList existing.phishingLinks new.phishingLinks,
    phoneNumbers := setUnionList existing.phoneNumbers new.phoneNumbers,
    suspiciousKeywords := setUnionList existing.suspiciousKeywords new.suspiciousKeywords }

/-- The functional fields of a session dict (creation and last-activity
timestamps and the stored history are not load-bearing and are omitted;
persona state is constant). -/
structure Session where
  turnCount : Nat
  scamDetected : Bool
  scamConfidence : ℚ
  scamType : String
  intel : Intel
  finalized : Bool
deriving DecidableEq

/-- The session created by SessionMemory.get_or_create_session for an
unseen identifier. -/
def freshSession : Session :=
  { turnCount := 0, scamDetected := false, scamConfidence := 0,
    scamType := "UNKNOWN", intel := emptyIntel, finalized := false }

/-- Settings.MAX_CONVERSATION_TURNS from app/config.py. -/
def MAX_CONVERSATION_TURNS : Nat := 15

/-- Transcription of ConversationOrchestrator._should_end_conversation,
with the four end conditions checked in source order. -/
def shouldEndConversation (s : Session) : Bool :=
  let hasUpi := s.intel.upiIds.length > 0
  let hasLink := s.intel.phishingLinks.length > 0
  let totalEntities :=
    s.intel.upiIds.length + s.intel.phishingLinks.length +
    s.intel.bankAccounts.length + s.intel.phoneNumbers.length
  if (hasUpi || hasLink) && s.turnCount ≥ 1 then true
  else if s.turnCount ≥ 2 && totalEntities ≥ 1 then true
  else if s.turnCount ≥ 3 then true
  else if s.turnCount ≥ MAX_CONVERSATION_TURNS then true
  else false

/-- The FinalResultPayload fields the Reporter receives (the session
identifier routes the callback and the agent notes are free text; the
functional fields are kept). -/
structure Payload where
  scamDetected : Bool
  totalMessagesExchanged : Nat
  intel : Intel
deriving DecidableEq

/-- Steps 3 to 6 of ConversationOrchestrator.process_message: extraction,
merge, turn increment, termination check, and the idempotent
finalize-and-callback guarded by the finalized flag.  The second
component is the payload handed to the Reporter when its send operation
is invoked on this step, the third marks the neutral-closing-reply path
(always false here). -/
def mainPipeline (s : Session) (msg : String) : Session × Option Payload × Bool :=
  let s2 := { s with intel := mergeIntelligence s.intel (extract msg),
                     turnCount := s.turnCount + 1 }
  if shouldEndConversation s2 then
    if s2.finalized then (s2, none, false)
    else
      let s3 := { s2 with finalized := true }
      (s3, some { scamDetected := s3.scamDetected,
                  totalMessagesExchanged := s3.turnCount,
                  intel := s3.intel }, false)
  else (s2, none, false)

/-- Transcription of ConversationOrchestrator.process_message for one
session.  On turn zero the detector runs; a non-scam verdict with
confidence below one tenth returns the neutral closing reply before the
turn count is touched; a non-scam verdict at or above one tenth is
overridden to engaged with confidence boosted to at least one half. -/
def processMessage (s : Session) (msg : String) (historyNonEmpty : Bool) :
    Session × Option Payload × Bool :=
  if s.turnCount = 0 then
    let d := detect msg historyNonEmpty
    let sa := { s with scamDetected := d.1, scamConfidence := d.2.1, scamType := d.2.2 }
    if !d.1 && d.2.1 < 1/10 then (sa, none, true)
    else
      let sb :=
        if !d.1 then { sa with scamDetected := true, scamConfidence := max (1/2) d.2.1 }
        else sa
      mainPipeline sb msg
  else mainPipeline s msg

/-- Sequential processing of a list of inbound messages (each with the
nonemptiness of the history it arrives with) for one session, counting
how many times the Reporter send operation is invoked. -/
def runMessages : Session → List (String × Bool) → Session × Nat
  | s, [] => (s, 0)
  | s, m :: rest =>
    let r := processMessage s m.1 m.2
    let q := runMessages r.1 rest
    (q.1, (if r.2.1.isSome then 1 else 0) + q.2)

/-- SessionMemory._sessions embedded as an association list keyed by
session identifier. -/
def SessionStore := List (String × Session)

/-- Python membership test session_id in self._sessions. -/
def containsSession (store : SessionStore) (id : String) : Bool :=
  store.any (fun kv => kv.1 = id)

/-- Transcription of SessionMemory.update_session: overwrite the entry
when the identifier is present, otherwise log a warning and do nothing. -/
def updateSession (store : SessionStore) (id : String) (data : Session) : SessionStore :=
  if containsSession store id then
    store.map (fun kv => if kv.1 = id then (id, data) else kv)
  else store

/-- The category confidence computed by _rule_based_detection for one
category, as a function of how many of its patterns match: the score is
matches over pattern count (line 136), and the selected category is
boosted to the maximum of six tenths and three times the score when any
pattern matched (lines 158 to 160); with no match the category
contributes zero (lines 161 to 163). -/
def categoryConfidence (pats : List Pat) (msg : List Char) : ℚ :=
  let m := matchCount pats msg
  if m = 0 then 0 else max (6/10 : ℚ) ((m : ℚ) / (pats.length : ℚ) * 3)

/-- The end-to-end scenario message of the specification. -/
def kycScenarioMsg : String :=
  "Your SBI KYC expired. Update immediately at bit.ly/fake-kyc"

/-! Helper lemmas. -/

theorem mem_unionFold (l acc : List String) (x : String) :
    x ∈ l.foldl (fun a y => if a.contains y then a else a ++ [y]) acc ↔
      x ∈ acc ∨ x ∈ l := by
  induction l generalizing acc with
  | nil => simp
  | cons y t ih =>
    simp only [List.foldl_cons]
    rw [ih]
    by_cases hy : acc.contains y = true
    · have hmem : y ∈ acc := by simpa using hy
      simp only [hy, if_pos]
      constructor
      · rintro (h | h)
        · exact Or.inl h
        · exact Or.inr (List.mem_cons_of_mem _ h)
      · rintro (h | h)
        · exact Or.inl h
        · rcases List.mem_cons.mp h with rfl | h2
          · exact Or.inl hmem
          · exact Or.inr h2
    · simp only [hy, if_neg, Bool.false_eq_true, not_false_iff, List.mem_append,
        List.mem_singleton, List.mem_cons]
      tauto

theorem mem_setUnionList {x : String} {a b : List String} :
    x ∈ setUnionList a b ↔ x ∈ a ∨ x ∈ b := by
  unfold setUnionList
  rw [mem_unionFold]
  simp

theorem mem_merge_fold (proj : Intel → List String)
    (hproj : ∀ e n, proj (mergeIntelligence e n) = setUnionList (proj e) (proj n))
    (turns : List Intel) (b : Intel) (x : String) :
    x ∈ proj (turns.foldl mergeIntelligence b) ↔
      x ∈ proj b ∨ ∃ t ∈ turns, x ∈ proj t := by
  induction turns generalizing b with
  | nil => simp
  | cons i t ih =>
    simp only [List.foldl_cons]
    rw [ih, hproj, mem_setUnionList]
    constructor
    · rintro ((h | h) | ⟨u, hu, hx⟩)
      · exact Or.inl h
      · exact Or.inr ⟨i, List.mem_cons_self i t, h⟩
      · exact Or.inr ⟨u, List.mem_cons_of_mem _ hu, hx⟩
    · rintro (h | ⟨u, hu, hx⟩)
      · exact Or.inl (Or.inl h)
      · rcases List.mem_cons.mp hu with rfl | hu2
        · exact Or.inl (Or.inr hx)
        · exact Or.inr ⟨u, hu2, hx⟩

theorem step_finalized_mono (s : Session) (msg : String) (h : Bool)
    (hf : s.finalized = true) : (processMessage s msg h).1.finalized = true := by
  simp only [processMessage, mainPipeline]
  split_ifs <;> simp_all

theorem step_reporter_sound (s : Session) (msg : String) (h : Bool)
    (hr : (processMessage s msg h).2.1.isSome = true) :
    s.finalized = false ∧ (processMessage s msg h).1.finalized = true := by
  simp only [processMessage, mainPipeline] at hr ⊢
  split_ifs at hr ⊢ <;> simp_all

theorem step_none_of_finalized (s : Session) (msg : String) (h : Bool)
    (hf : s.finalized = true) : (processMessage s msg h).2.1 = none := by
  simp only [processMessage, mainPipeline]
  split_ifs <;> simp_all

theorem run_finalized_mono (msgs : List (String × Bool)) (s : Session)
    (hf : s.finalized = true) : (runMessages s msgs).1.finalized = true := by
  induction msgs generalizing s with
  | nil => simpa [runMessages] using hf
  | cons m rest ih =>
    simp only [runMessages]
    exact ih _ (step_finalized_mono s m.1 m.2 hf)

theorem run_count_zero_of_finalized (msgs : List (String × Bool)) (s : Session)
    (hf : s.finalized = true) : (runMessages s msgs).2 = 0 := by
  induction msgs generalizing s with
  | nil => simp [runMessages]
  | cons m rest ih =>
    simp only [runMessages]
    rw [step_none_of_finalized s m.1 m.2 hf]
    simpa using ih _ (step_finalized_mono s m.1 m.2 hf)

theorem run_count_le_one (msgs : List (String × Bool)) (s : Session) :
    (runMessages s msgs).2 ≤ 1 := by
  induction msgs generalizing s with
  | nil => simp [runMessages]
  | cons m rest ih =>
    simp only [runMessages]
    by_cases hs : (processMessage s m.1 m.2).2.1.isSome = true
    · have h2 := step_reporter_sound s m.1 m.2 hs
      have hz := run_count_zero_of_finalized rest _ h2.2
      simp [hs, hz]
    · have hz : (if (processMessage s m.1 m.2).2.1.isSome then 1 else 0) = 0 := by
        simp [hs]
      rw [hz]
      simpa using ih (processMessage s m.1 m.2).1

theorem runMessages_append (s : Session) (l1 l2 : List (String × Bool)) :
    runMessages s (l1 ++ l2) =
      ((runMessages (runMessages s l1).1 l2).1,
       (runMessages s l1).2 + (runMessages (runMessages s l1).1 l2).2) := by
  induction l1 generalizing s with
  | nil => simp [runMessages]
  | cons m rest ih =>
    simp only [List.cons_append, runMessages, List.append_eq]
    rw [ih]
    simp [Nat.add_assoc]

theorem countWhile_le_length (f : Char → Bool) (cs : List Char) :
    countWhile f cs ≤ cs.length := by
  induction cs with
  | nil => simp [countWhile]
  | cons c t ih =>
    simp only [countWhile, List.length_cons]
    split_ifs <;> omega

theorem countWhile_append_mono (f : Char → Bool) (cs t : List Char) :
    countWhile f cs ≤ countWhile f (cs ++ t) := by
  induction cs with
  | nil => simp [countWhile]
  | cons c r ih =>
    simp only [List.cons_append, countWhile, List.append_eq]
    split_ifs <;> omega

theorem hasPrefixCI_length_le (l : List Char) :
    ∀ cs, hasPrefixCI l cs = true → l.length ≤ cs.length := by
  induction l with
  | nil => intro cs _; simp
  | cons a r ih =>
    intro cs h
    cases cs with
    | nil => simp [hasPrefixCI] at h
    | cons c t =>
      simp only [hasPrefixCI, Bool.and_eq_true] at h
      simpa [List.length_cons] using ih t h.2

theorem hasPrefixCI_append (l : List Char) :
    ∀ cs t, hasPrefixCI l cs = true → hasPrefixCI l (cs ++ t) = true := by
  induction l with
  | nil => intro cs t _; simp [hasPrefixCI]
  | cons a r ih =>
    intro cs t h
    cases cs with
    | nil => simp [hasPrefixCI] at h
    | cons c u =>
      simp only [hasPrefixCI, Bool.and_eq_true] at h
      simp only [List.cons_append, hasPrefixCI, Bool.and_eq_true]
      exact ⟨h.1, ih u t h.2⟩

theorem mem_descRange {n r lo : Nat} : n ∈ descRange r lo ↔ lo ≤ n ∧ n ≤ r := by
  unfold descRange
  simp only [List.mem_map, List.mem_range]
  constructor
  · rintro ⟨i, hi, rfl⟩
    omega
  · rintro ⟨h1, h2⟩
    exact ⟨r - n, by omega, by omega⟩

theorem pmatch_extends (p : Pat) :
    ∀ (cs t : List Char) (n : Nat), n ∈ pmatch p cs →
      n ≤ cs.length ∧ n ∈ pmatch p (cs ++ t) := by
  induction p with
  | lit l =>
    intro cs t n hm
    by_cases h : hasPrefixCI l cs = true
    · simp only [pmatch, h, if_pos, List.mem_singleton] at hm
      subst hm
      exact ⟨hasPrefixCI_length_le l cs h,
        by simp [pmatch, hasPrefixCI_append l cs t h]⟩
    · simp [pmatch, h] at hm
  | cls f =>
    intro cs t n hm
    cases cs with
    | nil => simp [pmatch] at hm
    | cons c rest =>
      by_cases h : f c = true
      · simp only [pmatch, h, if_pos, List.mem_singleton] at hm
        subst hm
        exact ⟨by simp, by simp [pmatch, h]⟩
      · simp [pmatch, h] at hm
  | starCls f =>
    intro cs t n hm
    simp only [pmatch] at hm ⊢
    rw [mem_descRange] at hm
    refine ⟨le_trans hm.2 (countWhile_le_length f cs), ?_⟩
    rw [mem_descRange]
    exact ⟨hm.1, le_trans hm.2 (countWhile_append_mono f cs t)⟩
  | plusCls f =>
    intro cs t n hm
    simp only [pmatch] at hm ⊢
    rw [mem_descRange] at hm
    refine ⟨le_trans hm.2 (countWhile_le_length f cs), ?_⟩
    rw [mem_descRange]
    exact ⟨hm.1, le_trans hm.2 (countWhile_append_mono f cs t)⟩
  | opt p ih =>
    intro cs t n hm
    simp only [pmatch, List.mem_append, List.mem_singleton] at hm
    rcases hm with hm | rfl
    · obtain ⟨h1, h2⟩ := ih cs t n hm
      exact ⟨h1, by simp only [pmatch, List.mem_append]; exact Or.inl h2⟩
    · exact ⟨Nat.zero_le _, by simp [pmatch]⟩
  | alt p q ihp ihq =>
    intro cs t n hm
    simp only [pmatch, List.mem_append] at hm ⊢
    rcases hm with hm | hm
    · obtain ⟨h1, h2⟩ := ihp cs t n hm
      exact ⟨h1, Or.inl h2⟩
    · obtain ⟨h1, h2⟩ := ihq cs t n hm
      exact ⟨h1, Or.inr h2⟩
  | seq p q ihp ihq =>
    intro cs t n hm
    simp only [pmatch, List.mem_flatMap, List.mem_map] at hm
    obtain ⟨a, ha, m2, hm2, rfl⟩ := hm
    obtain ⟨ha1, ha2⟩ := ihp cs t a ha
    obtain ⟨hb1, hb2⟩ := ihq (cs.drop a) t m2 hm2
    have hdrop : (cs ++ t).drop a = cs.drop a ++ t := List.drop_append_of_le_length ha1
    constructor
    · have hlen : m2 ≤ cs.length - a := by simpa [List.length_drop] using hb1
      omega
    · simp only [pmatch, List.mem_flatMap, List.mem_map]
      exact ⟨a, ha2, m2, by rw [hdrop]; exact hb2, rfl⟩

theorem psearch_extends (p : Pat) (cs t : List Char)
    (h : psearch p cs = true) : psearch p (cs ++ t) = true := by
  unfold psearch at h ⊢
  simp only [List.any_eq_true, List.mem_range] at h ⊢
  obtain ⟨i, hi, hne⟩ := h
  rw [Bool.not_eq_eq_eq_not, Bool.not_true, List.isEmpty_eq_false_iff_exists_mem] at hne
  obtain ⟨n, hn⟩ := hne
  have hile : i ≤ cs.length := Nat.lt_succ_iff.mp hi
  obtain ⟨_, h2⟩ := pmatch_extends p (cs.drop i) t n hn
  refine ⟨i, by simp only [List.length_append]; omega, ?_⟩
  rw [Bool.not_eq_eq_eq_not, Bool.not_true, List.isEmpty_eq_false_iff_exists_mem]
  rw [List.drop_append_of_le_length hile]
  exact ⟨n, h2⟩

theorem matchCount_append_mono (pats : List Pat) (cs t : List Char) :
    matchCount pats cs ≤ matchCount pats (cs ++ t) := by
  unfold matchCount
  induction pats with
  | nil => simp
  | cons p ps ih =>
    rw [List.countP_cons, List.countP_cons]
    by_cases hp : psearch p cs = true
    · rw [psearch_extends p cs t hp]
      simp only [hp]
      omega
    · have h0 : (if psearch p cs = true then 1 else 0) = 0 := by simp [hp]
      rw [h0]
      omega

theorem confFormula_mono (n : ℕ) {a b : ℕ} (h : a ≤ b) :
    (if a = 0 then (0 : ℚ) else max (6/10 : ℚ) ((a : ℚ) / (n : ℚ) * 3)) ≤
    (if b = 0 then (0 : ℚ) else max (6/10 : ℚ) ((b : ℚ) / (n : ℚ) * 3)) := by
  by_cases ha : a = 0
  · by_cases hb : b = 0
    · simp [ha, hb]
    · simp only [ha, hb, if_pos, if_neg, if_true]
      refine le_trans ?_ (le_max_left _ _)
      norm_num
  · have hb : b ≠ 0 := by omega
    simp only [ha, hb, if_neg]
    refine max_le_max le_rfl ?_
    refine mul_le_mul_of_nonneg_right ?_ (by norm_num)
    rcases Nat.eq_zero_or_pos n with h0 | hpos
    · simp [h0]
    · have hn : (0 : ℚ) < (n : ℚ) := by exact_mod_cast hpos
      have hab : (a : ℚ) ≤ (b : ℚ) := by exact_mod_cast h
      gcongr

/-! Evaluation lemmas on the two concrete messages used below.  The
regex and keyword machinery is integer-valued and evaluated by kernel
computation; the rational confidence arithmetic is evaluated by
norm_num. -/

theorem catScores_hello : categoryScores "hello".toList = [] := by
  have h1 : matchCount upiFraudPats "hello".toList = 0 := by decide
  have h2 : matchCount kycFraudPats "hello".toList = 0 := by decide
  have h3 : matchCount electricityScamPats "hello".toList = 0 := by decide
  have h4 : matchCount courierScamPats "hello".toList = 0 := by decide
  have h5 : matchCount jobScamPats "hello".toList = 0 := by decide
  have h6 : matchCount lotteryPrizePats "hello".toList = 0 := by decide
  simp only [categoryScores, scamPatterns, List.filterMap_cons, List.filterMap_nil,
    h1, h2, h3, h4, h5, h6]
  norm_num

theorem keywordScores_hello :
    keywordScore urgencyKeywords (lowerStr "hello") = 0 ∧
    keywordScore authorityKeywords (lowerStr "hello") = 0 ∧
    keywordScore suspiciousActions (lowerStr "hello") = 0 := by
  have hu : urgencyKeywords.countP (fun k => containsSub k.toList (lowerStr "hello")) = 0 := by
    decide
  have ha : authorityKeywords.countP (fun k => containsSub k.toList (lowerStr "hello")) = 0 := by
    decide
  have hc : suspiciousActions.countP (fun k => containsSub k.toList (lowerStr "hello")) = 0 := by
    decide
  refine ⟨?_, ?_, ?_⟩ <;> simp only [keywordScore, hu, ha, hc] <;> norm_num

theorem ruleBased_hello : ruleBasedDetection "hello" = ⟨0, "GENERIC_FRAUD"⟩ := by
  have hr : highRiskKeywords.countP (fun k => containsSub k.toList (lowerStr "hello")) = 0 := by
    decide
  simp only [ruleBasedDetection, catScores_hello, keywordScores_hello.1,
    keywordScores_hello.2.1, keywordScores_hello.2.2, hr, argmaxFirst]
  norm_num

theorem detect_hello : detect "hello" false = (false, 0, "NONE") := by
  rw [detect, ruleBased_hello]
  norm_num

theorem pm_hello : processMessage freshSession "hello" false =
    ({ freshSession with scamType := "NONE" }, none, true) := by
  rw [processMessage]
  norm_num [freshSession, detect_hello]

theorem catScores_kyc : categoryScores kycScenarioMsg.toList = [("KYC_FRAUD", (1:ℚ)/6)] := by
  have h1 : matchCount upiFraudPats kycScenarioMsg.toList = 0 := by decide
  have h2 : matchCount kycFraudPats kycScenarioMsg.toList = 1 := by decide
  have h3 : matchCount electricityScamPats kycScenarioMsg.toList = 0 := by decide
  have h4 : matchCount courierScamPats kycScenarioMsg.toList = 0 := by decide
  have h5 : matchCount jobScamPats kycScenarioMsg.toList = 0 := by decide
  have h6 : matchCount lotteryPrizePats kycScenarioMsg.toList = 0 := by decide
  simp only [categoryScores, scamPatterns, List.filterMap_cons, List.filterMap_nil,
    h1, h2, h3, h4, h5, h6]
  norm_num [kycFraudPats]

theorem keywordScores_kyc :
    keywordScore urgencyKeywords (lowerStr kycScenarioMsg) = 1/7 ∧
    keywordScore authorityKeywords (lowerStr kycScenarioMsg) = 0 ∧
    keywordScore suspiciousActions (lowerStr kycScenarioMsg) = 1/12 := by
  have hu : urgencyKeywords.countP (fun k => containsSub k.toList (lowerStr kycScenarioMsg)) = 2 := by
    decide
  have ha : authorityKeywords.countP (fun k => containsSub k.toList (lowerStr kycScenarioMsg)) = 0 := by
    decide
  have hc : suspiciousActions.countP (fun k => containsSub k.toList (lowerStr kycScenarioMsg)) = 1 := by
    decide
  refine ⟨?_, ?_, ?_⟩ <;> simp only [keywordScore, hu, ha, hc] <;>
    norm_num [urgencyKeywords, authorityKeywords, suspiciousActions]

theorem ruleBased_kyc : ruleBasedDetection kycScenarioMsg = ⟨1859/4200, "KYC_FRAUD"⟩ := by
  have hr : highRiskKeywords.countP (fun k => containsSub k.toList (lowerStr kycScenarioMsg)) = 1 := by
    decide
  simp only [ruleBasedDetection, catScores_kyc, keywordScores_kyc.1,
    keywordScores_kyc.2.1, keywordScores_kyc.2.2, hr, argmaxFirst, List.foldl_nil]
  norm_num

theorem detect_kyc : detect kycScenarioMsg false = (true, 1859/4200, "KYC_FRAUD") := by
  rw [detect, ruleBased_kyc]
  norm_num

theorem merge_kyc : mergeIntelligence emptyIntel (extract kycScenarioMsg) =
    ⟨[], [], [], ["http://bit.ly"], ["immediately", "expire", "update"]⟩ := by
  decide

theorem pm_kyc : processMessage freshSession kycScenarioMsg false =
    ({ turnCount := 1, scamDetected := true, scamConfidence := 1859/4200,
       scamType := "KYC_FRAUD",
       intel := ⟨[], [], [], ["http://bit.ly"], ["immediately", "expire", "update"]⟩,
       finalized := true },
     some { scamDetected := true, totalMessagesExchanged := 1,
            intel := ⟨[], [], [], ["http://bit.ly"], ["immediately", "expire", "update"]⟩ },
     false) := by
  rw [processMessage]
  norm_num [freshSession, detect_kyc, mainPipeline, merge_kyc, shouldEndConversation]

/-! Claim theorems. -/

/-- C10: for every session identifier absent from the session store,
SessionMemory.update_session leaves the store completely unchanged: no
session is created for that identifier and no existing entry is modified
or removed. -/
theorem update_session_absent_noop (store : SessionStore) (id : String)
    (data : Session) (h : containsSession store id = false) :
    updateSession store id data = store := by
  simp [updateSession, h]

theorem update_session_absent_noop_witness :
    containsSession [("s1", freshSession)] "s2" = false ∧
    updateSession [("s1", freshSession)] "s2" freshSession = [("s1", freshSession)] :=
  ⟨by decide, update_session_absent_noop _ _ _ (by decide)⟩

/-- C3: for every session state (in particular every one reached after
the turn-count increment of process_message), _should_end_conversation
returns true exactly when one of the four conditions holds: (a) at least
one payment handle or link is accumulated and the turn count is at least
one; (b) the turn count is at least two and the total of handles, links,
accounts and phones is at least one; (c) the turn count is at least
three; (d) the turn count reached MAX_CONVERSATION_TURNS; and it never
returns true when none of them holds. -/
theorem termination_predicate_iff (s : Session) :
    shouldEndConversation s = true ↔
      ((1 ≤ s.intel.upiIds.length ∨ 1 ≤ s.intel.phishingLinks.length) ∧ 1 ≤ s.turnCount) ∨
      (2 ≤ s.turnCount ∧
        1 ≤ s.intel.upiIds.length + s.intel.phishingLinks.length +
            s.intel.bankAccounts.length + s.intel.phoneNumbers.length) ∨
      3 ≤ s.turnCount ∨
      MAX_CONVERSATION_TURNS ≤ s.turnCount := by
  simp only [shouldEndConversation]
  split_ifs with h1 h2 h3 h4 <;>
    simp_all [Bool.and_eq_true, Bool.or_eq_true, decide_eq_true_eq] <;>
    omega

/-- C2 (amended): for every base state and sequence of per-turn
extractions, each of the five accumulated collections contains exactly
the case-sensitive set union of the base collection and all per-turn
contributions — so no entity is ever dropped once added and the
collections are monotonically non-shrinking; the case-insensitive
deduplication of the claim applies only within one extraction call, not
across merges (see the counterexample). -/
theorem merged_intel_is_union (b : Intel) (turns : List Intel) (x : String) :
    (x ∈ (turns.foldl mergeIntelligence b).upiIds ↔
      x ∈ b.upiIds ∨ ∃ t ∈ turns, x ∈ t.upiIds) ∧
    (x ∈ (turns.foldl mergeIntelligence b).bankAccounts ↔
      x ∈ b.bankAccounts ∨ ∃ t ∈ turns, x ∈ t.bankAccounts) ∧
    (x ∈ (turns.foldl mergeIntelligence b).phoneNumbers ↔
      x ∈ b.phoneNumbers ∨ ∃ t ∈ turns, x ∈ t.phoneNumbers) ∧
    (x ∈ (turns.foldl mergeIntelligence b).phishingLinks ↔
      x ∈ b.phishingLinks ∨ ∃ t ∈ turns, x ∈ t.phishingLinks) ∧
    (x ∈ (turns.foldl mergeIntelligence b).suspiciousKeywords ↔
      x ∈ b.suspiciousKeywords ∨ ∃ t ∈ turns, x ∈ t.suspiciousKeywords) :=
  ⟨mem_merge_fold Intel.upiIds (fun _ _ => rfl) turns b x,
   mem_merge_fold Intel.bankAccounts (fun _ _ => rfl) turns b x,
   mem_merge_fold Intel.phoneNumbers (fun _ _ => rfl) turns b x,
   mem_merge_fold Intel.phishingLinks (fun _ _ => rfl) turns b x,
   mem_merge_fold Intel.suspiciousKeywords (fun _ _ => rfl) turns b x⟩

/-- C2 counterexample: the merge is a case-sensitive set union, so two
turns contributing the same handle in different cases leave two entries
that differ only by case in the accumulated collection — the accumulated
collection is not the case-insensitively deduplicated union the claim
states. -/
theorem merge_case_sensitivity_counterexample :
    (extract "pay ab@PAYTM").upiIds = ["PAYTM"] ∧
    (extract "pay ab@paytm").upiIds = ["paytm"] ∧
    "PAYTM" ∈ (mergeIntelligence (mergeIntelligence emptyIntel (extract "pay ab@PAYTM"))
        (extract "pay ab@paytm")).upiIds ∧
    "paytm" ∈ (mergeIntelligence (mergeIntelligence emptyIntel (extract "pay ab@PAYTM"))
        (extract "pay ab@paytm")).upiIds ∧
    ("PAYTM" : String) ≠ "paytm" ∧
    String.mk ("PAYTM".toList.map lowerChar) = String.mk ("paytm".toList.map lowerChar) := by
  decide

/-- C5 (code bug): extract on a message containing a payment handle with
an allow-listed provider emits only the provider token, because
re.findall returns the single capturing group of the upiIds pattern and
that group covers only the provider alternation — not the full
local-part at provider handle the claim and the extractor's own
documentation (UPI ID patterns name at provider, validate_upi) describe.
The unlisted-provider half of the claim does hold: a corporate e-mail
address yields no handle. -/
theorem upi_capture_group_eval :
    (extract "send to rahul.k@paytm now").upiIds = ["paytm"] ∧
    (extract "contact me at office@company.com").upiIds = [] := by
  decide

/-- C7 (amended): every processed message increments the session's turn
count by exactly one, except a message answered with the neutral closing
reply (a first-turn non-scam verdict with confidence below one tenth),
which returns before the increment and leaves the turn count unchanged. -/
theorem turn_count_increment (s : Session) (msg : String) (h : Bool) :
    (processMessage s msg h).1.turnCount =
      s.turnCount + (if (processMessage s msg h).2.2 = true then 0 else 1) := by
  simp only [processMessage, mainPipeline]
  split_ifs <;> simp_all

/-- C7 counterexample: a benign first message takes the neutral-closing
path of process_message and leaves the turn count at zero, so the claim
that the turn count rises by one even on neutral-reply messages fails. -/
theorem neutral_reply_no_increment :
    (processMessage freshSession "hello" false).2.2 = true ∧
    (processMessage freshSession "hello" false).1.turnCount = 0 ∧
    (processMessage freshSession "hello" false).1.turnCount ≠ freshSession.turnCount + 1 := by
  rw [pm_hello]
  simp [freshSession]

/-- C8: the three prefixed spellings of the same Indian mobile number
all normalize to the plus-91 canonical form (strip non-digits, drop a
leading zero, drop a leading 91 when more than ten digits remain, accept
exactly ten digits starting with 7, 8 or 9), and a five-digit string
yields no phone-number match at all. -/
theorem phone_normalization_cases :
    (extract "+91 9876543210").phoneNumbers = ["+919876543210"] ∧
    (extract "09876543210").phoneNumbers = ["+919876543210"] ∧
    (extract "919876543210").phoneNumbers = ["+919876543210"] ∧
    (extract "12345").phoneNumbers = [] := by
  decide

/-- C6 (amended): detect reports a scam exactly when the computed
confidence exceeds one fifth, or the history is nonempty and it exceeds
one tenth; the returned confidence is always the computed value,
unclamped; the computed category label is returned only on the scam
branches, while the non-scam branch returns the fixed label NONE instead
of the computed generic-fraud label. -/
theorem detect_decision_policy (msg : String) (hist : Bool) :
    detect msg hist =
      (decide (1/5 < (ruleBasedDetection msg).confidence) ||
         (hist && decide (1/10 < (ruleBasedDetection msg).confidence)),
       (ruleBasedDetection msg).confidence,
       if 1/5 < (ruleBasedDetection msg).confidence ∨
          (hist = true ∧ 1/10 < (ruleBasedDetection msg).confidence) then
         (ruleBasedDetection msg).scamType
       else "NONE") := by
  cases hist with
  | false =>
    rw [detect]
    by_cases h1 : (5:ℚ)⁻¹ < (ruleBasedDetection msg).confidence <;>
      simp [one_div, h1]
  | true =>
    rw [detect]
    by_cases h1 : (5:ℚ)⁻¹ < (ruleBasedDetection msg).confidence
    · simp [one_div, h1]
    · by_cases h2 : (10:ℚ)⁻¹ < (ruleBasedDetection msg).confidence <;>
        simp [one_div, h1, h2]

/-- C6 counterexample: on a message matching no category pattern and an
empty history, detect returns the label NONE although the computed
category label of _rule_based_detection is GENERIC_FRAUD — the claim
that the computed category label (generic-fraud when nothing matched) is
returned in every case fails on the non-scam branch. -/
theorem detect_nonscam_label_counterexample :
    (detect "hello" false).1 = false ∧
    (detect "hello" false).2.2 = "NONE" ∧
    (ruleBasedDetection "hello").scamType = "GENERIC_FRAUD" ∧
    ("NONE" : String) ≠ "GENERIC_FRAUD" := by
  refine ⟨?_, ?_, ?_, ?_⟩ <;> simp [detect_hello, ruleBased_hello]

/-- C9: the computed category confidence is monotone non-decreasing in
the number of the category's matching patterns: for every scam category
and message, appending any further text (in particular text making one
more pattern match) never decreases the category confidence, because a
pattern that matched still matches the extended message and the boost
formula is monotone in the match count. -/
theorem category_confidence_monotone (i : Fin scamPatterns.length)
    (msg ext : List Char) :
    categoryConfidence (scamPatterns.get i).2 msg ≤
      categoryConfidence (scamPatterns.get i).2 (msg ++ ext) := by
  simp only [categoryConfidence]
  exact confFormula_mono _ (matchCount_append_mono _ msg ext)

/-- C4 (code bug): processing the KYC scenario message on turn zero of a
fresh session classifies it as a scam of category KYC_FRAUD, leaves the
turn count at one, fires termination condition (a) (a link is present
and the turn count is at least one), and invokes the Reporter exactly
once with one message exchanged — but the single accumulated link is the
bare http://bit.ly rather than the claimed http://bit.ly/fake-kyc: the
shortenedLinks pattern captures only the domain group (and its path
class excludes the hyphen), so re.findall drops the path that the code
means to preserve when it reconstructs the URL. -/
theorem kyc_scenario_eval :
    (detect kycScenarioMsg false).1 = true ∧
    (detect kycScenarioMsg false).2.2 = "KYC_FRAUD" ∧
    (processMessage freshSession kycScenarioMsg false).1.turnCount = 1 ∧
    (processMessage freshSession kycScenarioMsg false).1.intel.phishingLinks =
      ["http://bit.ly"] ∧
    (processMessage freshSession kycScenarioMsg false).1.finalized = true ∧
    ((processMessage freshSession kycScenarioMsg false).2.1.map
      Payload.totalMessagesExchanged) = some 1 ∧
    (runMessages freshSession [(kycScenarioMsg, false)]).2 = 1 := by
  refine ⟨?_, ?_, ?_, ?_, ?_, ?_, ?_⟩ <;> simp [detect_kyc, pm_kyc, runMessages]

/-- C1: over any sequence of processed messages for one fresh session,
the Reporter send operation is invoked at most once, and once the
finalized flag is true it stays true under any further processing — so
it transitions false to true at most once and never reverts, no matter
how many times the termination predicate is re-evaluated afterwards. -/
theorem finalize_once_and_monotone (msgs more : List (String × Bool)) :
    (runMessages freshSession (msgs ++ more)).2 ≤ 1 ∧
    ((runMessages freshSession msgs).1.finalized = true →
      (runMessages freshSession (msgs ++ more)).1.finalized = true) := by
  constructor
  · exact run_count_le_one _ _
  · intro h
    rw [runMessages_append]
    exact run_finalized_mono more _ h

theorem finalize_once_and_monotone_witness :
    (runMessages freshSession ([(kycScenarioMsg, false)] ++ [(kycScenarioMsg, true)])).2 ≤ 1 ∧
    (runMessages freshSession ([(kycScenarioMsg, false)] ++ [(kycScenarioMsg, true)])).1.finalized
      = true :=
  ⟨(finalize_once_and_monotone [(kycScenarioMsg, false)] [(kycScenarioMsg, true)]).1,
   (finalize_once_and_monotone [(kycScenarioMsg, false)] [(kycScenarioMsg, true)]).2
     (by simp [runMessages, pm_kyc])⟩

end HoneyPot
